import Mathlib

/-!
Verification of the core of `gpx-anonymizer.py`: a three-pass pipeline that
removes GPX track points falling inside removal regions (rectangles and
circles), splits segments at removals, classifies short "stray" segments near
region vicinities, optionally removes them, and rebuilds the tracks.

Coordinates and distances are modelled over the reals; Python floats become
real numbers.  XML track points become values of `Trkpt` carrying an opaque
attribute payload; tracks carry their non-segment content in `Trk.extra`.
-/

set_option maxHeartbeats 1000000

namespace GpxAnon

/-- A GPX track point: required latitude/longitude plus an opaque bag of
further attributes and sub-elements the core never interprets. -/
structure Trkpt where
  lat : ℝ
  lon : ℝ
  attrs : List String

/-- A GPX track: its ordered list of `trkseg` point lists, plus the track's
other (non-`trkseg`) content, which the pipeline leaves untouched. -/
structure Trk where
  extra : List String
  segs : List (List Trkpt)

/-- A rectangle removal region given by two diagonal corners, as the four
floats of the `--rect` option. -/
structure Rect where
  lat1 : ℝ
  lon1 : ℝ
  lat2 : ℝ
  lon2 : ℝ

/-- A circle removal region: center and radius in meters, as the three floats
of the `--circle` option. -/
structure Circle where
  center_lat : ℝ
  center_lon : ℝ
  radius : ℝ

/-- Python's `math.radians`: degrees to radians. -/
noncomputable def radians (x : ℝ) : ℝ := x * (Real.pi / 180)

/-- Python's `math.atan2 y x`, as the argument of the complex number `x + y*i`. -/
noncomputable def atan2 (y x : ℝ) : ℝ := Complex.arg ⟨x, y⟩

/-- The intermediate value `a` of `haversine`:
`sin(dphi/2)**2 + cos(phi1)*cos(phi2)*sin(dlambda/2)**2`. -/
noncomputable def hav_a (lat1 lon1 lat2 lon2 : ℝ) : ℝ :=
  Real.sin (radians (lat2 - lat1) / 2) ^ 2 +
    Real.cos (radians lat1) * Real.cos (radians lat2) *
      Real.sin (radians (lon2 - lon1) / 2) ^ 2

/-- The source's `haversine`: great-circle distance in meters between two points,
`R * c` with `R = 6371000` and `c = 2*atan2(sqrt(a), sqrt(1-a))`. -/
noncomputable def haversine (lat1 lon1 lat2 lon2 : ℝ) : ℝ :=
  6371000 *
    (2 * atan2 (Real.sqrt (hav_a lat1 lon1 lat2 lon2))
      (Real.sqrt (1 - hav_a lat1 lon1 lat2 lon2)))

/-- The source's `point_in_rect`: `(min_lat <= lat <= max_lat) and (min_lon <= lon <= max_lon)`
for the corner-normalized bounds. -/
def point_in_rect (lat lon : ℝ) (rect : Rect) : Prop :=
  (min rect.lat1 rect.lat2 ≤ lat ∧ lat ≤ max rect.lat1 rect.lat2) ∧
    (min rect.lon1 rect.lon2 ≤ lon ∧ lon ≤ max rect.lon1 rect.lon2)

/-- The source's `point_in_circle`: haversine distance to the center is at most the radius. -/
noncomputable def point_in_circle (lat lon : ℝ) (circle : Circle) : Prop :=
  haversine lat lon circle.center_lat circle.center_lon ≤ circle.radius

/-- The source's `point_in_circle_vicinity`: distance at most `radius + effective_vicinity`,
where the effective vicinity is the override when given, else the radius. -/
noncomputable def point_in_circle_vicinity (lat lon : ℝ) (circle : Circle)
    (global_vicinity : Option ℝ) : Prop :=
  haversine lat lon circle.center_lat circle.center_lon ≤
    circle.radius + global_vicinity.getD circle.radius

/-- The rectangle's midpoint latitude `(min_lat + max_lat) / 2`. -/
noncomputable def rect_center_lat (rect : Rect) : ℝ :=
  (min rect.lat1 rect.lat2 + max rect.lat1 rect.lat2) / 2

/-- The rectangle's width: great-circle distance between the side midpoints at
the center latitude. -/
noncomputable def rect_width (rect : Rect) : ℝ :=
  haversine (rect_center_lat rect) (min rect.lon1 rect.lon2)
    (rect_center_lat rect) (max rect.lon1 rect.lon2)

/-- The rectangle's height: great-circle distance between the top and bottom
edge midpoints. -/
noncomputable def rect_height (rect : Rect) : ℝ :=
  haversine (min rect.lat1 rect.lat2) ((min rect.lon1 rect.lon2 + max rect.lon1 rect.lon2) / 2)
    (max rect.lat1 rect.lat2) ((min rect.lon1 rect.lon2 + max rect.lon1 rect.lon2) / 2)

/-- The rectangle's default vicinity: `min(width, height) / 2`. -/
noncomputable def rect_default_vicinity (rect : Rect) : ℝ :=
  min (rect_width rect) (rect_height rect) / 2

/-- The source's `point_in_expanded_rectangle`: bounds expanded by the effective vicinity
converted to degrees, `v/111111` in latitude and `v/(111111*cos(center_lat))`
in longitude. -/
noncomputable def point_in_expanded_rectangle (lat lon : ℝ) (rect : Rect)
    (global_vicinity : Option ℝ) : Prop :=
  (min rect.lat1 rect.lat2 - global_vicinity.getD (rect_default_vicinity rect) / 111111 ≤ lat ∧
      lat ≤ max rect.lat1 rect.lat2 + global_vicinity.getD (rect_default_vicinity rect) / 111111) ∧
    (min rect.lon1 rect.lon2 -
        global_vicinity.getD (rect_default_vicinity rect) /
          (111111 * Real.cos (radians (rect_center_lat rect))) ≤ lon ∧
      lon ≤ max rect.lon1 rect.lon2 +
        global_vicinity.getD (rect_default_vicinity rect) /
          (111111 * Real.cos (radians (rect_center_lat rect))))

lemma atan2_zero_one : atan2 0 1 = 0 := by
  unfold atan2
  have h : (⟨1, 0⟩ : ℂ) = 1 := by
    apply Complex.ext <;> simp
  rw [h, Complex.arg_one]

lemma hav_a_self (lat lon : ℝ) : hav_a lat lon lat lon = 0 := by
  unfold hav_a radians
  simp

/-- The haversine distance between identical points is zero. -/
lemma haversine_self (lat lon : ℝ) : haversine lat lon lat lon = 0 := by
  unfold haversine
  rw [hav_a_self]
  simp [atan2_zero_one]

/-- The haversine distance is never negative. -/
lemma haversine_nonneg (lat1 lon1 lat2 lon2 : ℝ) : 0 ≤ haversine lat1 lon1 lat2 lon2 := by
  unfold haversine
  have h : 0 ≤ atan2 (Real.sqrt (hav_a lat1 lon1 lat2 lon2))
      (Real.sqrt (1 - hav_a lat1 lon1 lat2 lon2)) := by
    unfold atan2
    rw [Complex.arg_nonneg_iff]
    simp
  positivity

/-- The `removed` flag of the first pass: the point matches some rectangle or
some circle (union semantics). -/
noncomputable def pointRemoved (rects : List Rect) (circles : List Circle) (p : Trkpt) : Prop :=
  (∃ r ∈ rects, point_in_rect p.lat p.lon r) ∨
    (∃ c ∈ circles, point_in_circle p.lat p.lon c)

/-- The mutable state of the first pass: the global `new_segments` list, the
per-`trkseg` `current_seg_points` run, `total_points_removed`, and the
per-region removal counters. -/
structure SegState where
  newSegments : List (List Trkpt)
  current : List Trkpt
  totalRemoved : ℕ
  rectCounts : List ℕ
  circleCounts : List ℕ

open Classical in
/-- One iteration of the `for trkpt in trkseg` loop of the first pass: every
matching region's counter is incremented; a removed point ends the current
run (when non-empty) and is discarded; a retained point is appended to the
current run. -/
noncomputable def stepPoint (rects : List Rect) (circles : List Circle)
    (s : SegState) (p : Trkpt) : SegState :=
  let rc := List.zipWith (fun r n => if point_in_rect p.lat p.lon r then n + 1 else n)
    rects s.rectCounts
  let cc := List.zipWith (fun c n => if point_in_circle p.lat p.lon c then n + 1 else n)
    circles s.circleCounts
  if pointRemoved rects circles p then
    { newSegments := if s.current = [] then s.newSegments else s.newSegments ++ [s.current]
      current := []
      totalRemoved := s.totalRemoved + 1
      rectCounts := rc
      circleCounts := cc }
  else
    { s with current := s.current ++ [p], rectCounts := rc, circleCounts := cc }

open Classical in
/-- Processing one original `trkseg` in the first pass: fold `stepPoint` over
its points, then close the final non-empty run. -/
noncomputable def segmentTrkseg (rects : List Rect) (circles : List Circle)
    (pts : List Trkpt) (s : SegState) : SegState :=
  let t := pts.foldl (stepPoint rects circles) s
  { t with
    newSegments := if t.current = [] then t.newSegments else t.newSegments ++ [t.current]
    current := [] }

/-- The whole first pass: all tracks' `trkseg`s in order, starting from empty
segments and `[0] * len(rects)` / `[0] * len(circles)` counters. -/
noncomputable def pass1 (rects : List Rect) (circles : List Circle) (doc : List Trk) : SegState :=
  doc.foldl
    (fun s trk => trk.segs.foldl (fun s' pts => segmentTrkseg rects circles pts s') s)
    ⟨[], [], 0, rects.map (fun _ => 0), circles.map (fun _ => 0)⟩

/-- A segment's length: the sum of consecutive great-circle distances, `0.0`
for fewer than two points. -/
noncomputable def seg_length : List Trkpt → ℝ
  | p :: q :: rest => haversine p.lat p.lon q.lat q.lon + seg_length (q :: rest)
  | _ => 0

open Classical in
/-- The `for pt in pts: ... break` scan of the second pass: `true` as soon as
the first point satisfying the predicate is found, at which point the scan of
this region stops. -/
noncomputable def scanPts (pred : Trkpt → Prop) : List Trkpt → Bool
  | [] => false
  | p :: rest => if pred p then true else scanPts pred rest

/-- The state of the second pass: the global stray index set and the
per-region lists of stray segment lengths. -/
structure StrayState where
  globalStray : Finset ℕ
  strayRect : List (List ℝ)
  strayCircle : List (List ℝ)

open Classical in
/-- Classification of one post-split segment (index `idx` in the flattened
segment list): only when its length is at most `max_stray_length`, each
rectangle and each circle whose vicinity-expanded zone holds some point of
the segment gets the segment's length appended to its stray list, and the
segment's index is added to the global stray set. -/
noncomputable def classifySeg (rects : List Rect) (circles : List Circle)
    (max_stray_length : ℝ) (max_stray_vicinity : Option ℝ)
    (st : StrayState) (idx : ℕ) (pts : List Trkpt) : StrayState :=
  if seg_length pts ≤ max_stray_length then
    let sr := List.zipWith
      (fun r lst =>
        if scanPts (fun p => point_in_expanded_rectangle p.lat p.lon r max_stray_vicinity) pts
        then lst ++ [seg_length pts] else lst)
      rects st.strayRect
    let g1 :=
      if ∃ r ∈ rects,
          scanPts (fun p => point_in_expanded_rectangle p.lat p.lon r max_stray_vicinity) pts
            = true
      then insert idx st.globalStray else st.globalStray
    let sc := List.zipWith
      (fun c lst =>
        if scanPts (fun p => point_in_circle_vicinity p.lat p.lon c max_stray_vicinity) pts
        then lst ++ [seg_length pts] else lst)
      circles st.strayCircle
    let g2 :=
      if ∃ c ∈ circles,
          scanPts (fun p => point_in_circle_vicinity p.lat p.lon c max_stray_vicinity) pts = true
      then insert idx g1 else g1
    ⟨g2, sr, sc⟩
  else st

/-- The whole second pass over the flattened `new_segments` list, with
`enumerate` indices. -/
noncomputable def pass2 (rects : List Rect) (circles : List Circle)
    (max_stray_length : ℝ) (max_stray_vicinity : Option ℝ)
    (segs : List (List Trkpt)) : StrayState :=
  segs.enum.foldl
    (fun st q => classifySeg rects circles max_stray_length max_stray_vicinity st q.1 q.2)
    ⟨∅, rects.map (fun _ => []), circles.map (fun _ => [])⟩

/-- Everything the pipeline produces: the rewritten document and the
diagnostics (removal counters, stray statistics, stray index set, and the
final segment list every track receives). -/
structure PipelineResult where
  outDoc : List Trk
  totalRemoved : ℕ
  rectRemovedCounts : List ℕ
  circleRemovedCounts : List ℕ
  strayRect : List (List ℝ)
  strayCircle : List (List ℝ)
  globalStrayIndices : Finset ℕ
  finalSegments : List (List Trkpt)

open Classical in
/-- The source's `process_gpx_with_stats`: the three passes.  The third pass drops stray
segments when `remove_stray` is set; the rebuild then strips every track's
`trkseg` children and appends the whole final segment list to every track
(this is what lines 209-214 of the source do). -/
noncomputable def process_gpx_with_stats (rects : List Rect) (circles : List Circle)
    (max_stray_length : ℝ) (remove_stray : Bool) (max_stray_vicinity : Option ℝ)
    (doc : List Trk) : PipelineResult :=
  let s := pass1 rects circles doc
  let st := pass2 rects circles max_stray_length max_stray_vicinity s.newSegments
  let final :=
    if remove_stray
    then (s.newSegments.enum.filter (fun q => decide (q.1 ∉ st.globalStray))).map Prod.snd
    else s.newSegments
  { outDoc := doc.map (fun trk => { trk with segs := final })
    totalRemoved := s.totalRemoved
    rectRemovedCounts := s.rectCounts
    circleRemovedCounts := s.circleCounts
    strayRect := st.strayRect
    strayCircle := st.strayCircle
    globalStrayIndices := st.globalStray
    finalSegments := final }

/-! ## List helpers -/

lemma dropWhile_length_le (p : α → Bool) (l : List α) :
    (l.dropWhile p).length ≤ l.length := by
  induction l with
  | nil => simp [List.dropWhile]
  | cons x xs ih =>
    rw [List.dropWhile_cons]
    split
    · exact ih.trans (Nat.le_succ _)
    · exact le_rfl

lemma getD_zipWith (f : α → β → β) (d : β) :
    ∀ (l : List α) (c : List β) (i : ℕ), c.length = l.length → ∀ h : i < l.length,
      (List.zipWith f l c).getD i d = f (l.get ⟨i, h⟩) (c.getD i d)
  | [], _, i, _, h => absurd h (by simp)
  | _ :: _, [], _, hlen, _ => by simp at hlen
  | a :: l, b :: c, 0, _, _ => by simp
  | a :: l, b :: c, i + 1, hlen, h => by
    have := getD_zipWith f d l c i (by simpa using hlen) (by simpa using h)
    simpa using this

lemma snd_mem_of_mem_enum_filter {l : List α} {P : ℕ × α → Bool} {x : α}
    (h : x ∈ (l.enum.filter P).map Prod.snd) : x ∈ l := by
  obtain ⟨q, hq, rfl⟩ := List.mem_map.mp h
  exact List.snd_mem_of_mem_enumFrom (List.mem_of_mem_filter hq)

/-! ## Maximal runs: the segments the splitting produces -/

open Classical in
/-- The maximal runs of consecutive retained (`¬ bad`) elements, in order:
each run starts at a retained element and extends as far as retained elements
go; `bad` elements are dropped and separate the runs. -/
noncomputable def maximalRuns (bad : α → Prop) : List α → List (List α)
  | [] => []
  | x :: xs =>
    if bad x then maximalRuns bad xs
    else (x :: xs.takeWhile fun a => !decide (bad a)) ::
      maximalRuns bad (xs.dropWhile fun a => !decide (bad a))
termination_by l => l.length
decreasing_by
· simp
· simpa using Nat.lt_succ_of_le (dropWhile_length_le _ xs)

lemma maximalRuns_nil (bad : α → Prop) : maximalRuns bad [] = [] := by
  rw [maximalRuns]

open Classical in
lemma maximalRuns_cons_bad (bad : α → Prop) (x : α) (xs : List α) (h : bad x) :
    maximalRuns bad (x :: xs) = maximalRuns bad xs := by
  rw [maximalRuns, if_pos h]

open Classical in
lemma maximalRuns_cons_good (bad : α → Prop) (x : α) (xs : List α) (h : ¬ bad x) :
    maximalRuns bad (x :: xs) =
      (x :: xs.takeWhile fun a => !decide (bad a)) ::
        maximalRuns bad (xs.dropWhile fun a => !decide (bad a)) := by
  rw [maximalRuns, if_neg h]

open Classical in
/-- Concatenating the runs gives back exactly the retained elements, in
order. -/
lemma flatten_maximalRuns (bad : α → Prop) (l : List α) :
    (maximalRuns bad l).flatten = l.filter fun a => !decide (bad a) := by
  generalize hl : l.length = n
  induction n using Nat.strong_induction_on generalizing l with
  | _ n ih =>
    subst hl
    match l with
    | [] => simp [maximalRuns_nil]
    | x :: xs =>
      by_cases hx : bad x
      · rw [maximalRuns_cons_bad _ _ _ hx, ih xs.length (by simp) xs rfl]
        simp [List.filter_cons, hx]
      · rw [maximalRuns_cons_good _ _ _ hx]
        have hdrop := ih (xs.dropWhile fun a => !decide (bad a)).length
          (Nat.lt_succ_of_le (dropWhile_length_le _ xs)) _ rfl
        have hfself : ((xs.takeWhile fun a => !decide (bad a)).filter
            fun a => !decide (bad a)) = xs.takeWhile fun a => !decide (bad a) := by
          rw [List.filter_eq_self]
          intro a ha
          exact @List.mem_takeWhile_imp _ (fun a => !decide (bad a)) _ _ ha
        have hsplit : (xs.takeWhile fun a => !decide (bad a)) ++
            ((xs.dropWhile fun a => !decide (bad a)).filter fun a => !decide (bad a)) =
            xs.filter fun a => !decide (bad a) := by
          conv_rhs => rw [← List.takeWhile_append_dropWhile
            (p := fun a => !decide (bad a)) (l := xs)]
          rw [List.filter_append, hfself]
        rw [List.flatten_cons, hdrop, List.filter_cons]
        have hxd : decide (bad x) = false := decide_eq_false hx
        rw [hxd]
        simp only [Bool.not_false, if_true, List.cons_append]
        rw [hsplit]

open Classical in
/-- Every run is non-empty and holds only retained elements. -/
lemma maximalRuns_runs (bad : α → Prop) (l : List α) :
    ∀ r ∈ maximalRuns bad l, r ≠ [] ∧ ∀ a ∈ r, ¬ bad a := by
  generalize hl : l.length = n
  induction n using Nat.strong_induction_on generalizing l with
  | _ n ih =>
    subst hl
    match l with
    | [] => simp [maximalRuns_nil]
    | x :: xs =>
      by_cases hx : bad x
      · rw [maximalRuns_cons_bad _ _ _ hx]
        exact ih xs.length (by simp) xs rfl
      · rw [maximalRuns_cons_good _ _ _ hx]
        intro r hr
        rcases List.mem_cons.mp hr with rfl | hr
        · refine ⟨by simp, ?_⟩
          intro a ha
          rcases List.mem_cons.mp ha with rfl | ha
          · exact hx
          · have h2 : (!decide (bad a)) = true := @List.mem_takeWhile_imp _ (fun a => !decide (bad a)) _ _ ha
            simpa using h2
        · exact ih (xs.dropWhile fun a => !decide (bad a)).length
            (Nat.lt_succ_of_le (dropWhile_length_le _ xs)) _ rfl r hr

open Classical in
/-- Runs of a fully retained list: the list itself, when non-empty. -/
lemma maximalRuns_all_good (bad : α → Prop) (cur : List α) (hcur : ∀ x ∈ cur, ¬ bad x) :
    maximalRuns bad cur = if cur = [] then [] else [cur] := by
  match cur with
  | [] => simp [maximalRuns_nil]
  | x :: xs =>
    rw [maximalRuns_cons_good _ _ _ (hcur x (by simp))]
    have htake : (xs.takeWhile fun a => !decide (bad a)) = xs := by
      rw [List.takeWhile_eq_self_iff]
      intro a ha
      simpa using hcur a (by simp [ha])
    have hdrop : (xs.dropWhile fun a => !decide (bad a)) = [] := by
      rw [List.dropWhile_eq_nil_iff]
      intro a ha
      simpa using hcur a (by simp [ha])
    rw [htake, hdrop, maximalRuns_nil]
    simp

open Classical in
/-- Prepending a retained run and a removed element to a list: the run closes
as one segment and the removed element disappears. -/
lemma maximalRuns_append_bad (bad : α → Prop) (cur : List α) (p : α) (rest : List α)
    (hcur : ∀ x ∈ cur, ¬ bad x) (hp : bad p) :
    maximalRuns bad (cur ++ p :: rest) =
      (if cur = [] then [] else [cur]) ++ maximalRuns bad rest := by
  match cur with
  | [] => simp [maximalRuns_cons_bad _ _ _ hp]
  | x :: xs =>
    rw [List.cons_append, maximalRuns_cons_good _ _ _ (hcur x (by simp))]
    have hboth : ((xs ++ p :: rest).takeWhile fun a => !decide (bad a)) = xs ∧
        ((xs ++ p :: rest).dropWhile fun a => !decide (bad a)) = p :: rest := by
      induction xs with
      | nil =>
        constructor <;> simp [List.takeWhile_cons, List.dropWhile_cons, hp]
      | cons y ys ihy =>
        have hy : decide (bad y) = false := decide_eq_false (hcur y (by simp))
        have ih2 := ihy (fun z hz => hcur z (by simp at hz ⊢; tauto))
        constructor
        · rw [List.cons_append, List.takeWhile_cons, hy]
          simp [ih2.1]
        · rw [List.cons_append, List.dropWhile_cons, hy]
          simpa using ih2.2
    rw [hboth.1, hboth.2, maximalRuns_cons_bad _ _ _ hp]
    simp

/-! ## First pass characterization -/

open Classical in
lemma stepPoint_removed (rects : List Rect) (circles : List Circle) (s : SegState) (p : Trkpt)
    (h : pointRemoved rects circles p) :
    stepPoint rects circles s p =
      { newSegments := if s.current = [] then s.newSegments else s.newSegments ++ [s.current]
        current := []
        totalRemoved := s.totalRemoved + 1
        rectCounts := List.zipWith (fun r n => if point_in_rect p.lat p.lon r then n + 1 else n)
          rects s.rectCounts
        circleCounts :=
          List.zipWith (fun c n => if point_in_circle p.lat p.lon c then n + 1 else n)
            circles s.circleCounts } := by
  rw [stepPoint]
  simp only [if_pos h]

open Classical in
lemma stepPoint_retained (rects : List Rect) (circles : List Circle) (s : SegState) (p : Trkpt)
    (h : ¬ pointRemoved rects circles p) :
    stepPoint rects circles s p =
      { s with
        current := s.current ++ [p]
        rectCounts := List.zipWith (fun r n => if point_in_rect p.lat p.lon r then n + 1 else n)
          rects s.rectCounts
        circleCounts :=
          List.zipWith (fun c n => if point_in_circle p.lat p.lon c then n + 1 else n)
            circles s.circleCounts } := by
  rw [stepPoint]
  simp only [if_neg h]

open Classical in
/-- Folding the per-point step over a point list: the closed segments so far
plus the pending run make up exactly the maximal retained runs. -/
lemma foldl_stepPoint_spec (rects : List Rect) (circles : List Circle) :
    ∀ (pts : List Trkpt) (s : SegState),
      (∀ x ∈ s.current, ¬ pointRemoved rects circles x) →
      (∀ x ∈ (pts.foldl (stepPoint rects circles) s).current, ¬ pointRemoved rects circles x) ∧
        ((pts.foldl (stepPoint rects circles) s).newSegments ++
            (if (pts.foldl (stepPoint rects circles) s).current = [] then []
              else [(pts.foldl (stepPoint rects circles) s).current]) =
          s.newSegments ++ maximalRuns (pointRemoved rects circles) (s.current ++ pts)) := by
  intro pts
  induction pts with
  | nil =>
    intro s hcur
    refine ⟨by simpa using hcur, ?_⟩
    rw [List.foldl_nil, List.append_nil, maximalRuns_all_good _ _ hcur]
  | cons p rest ih =>
    intro s hcur
    rw [List.foldl_cons]
    by_cases hrem : pointRemoved rects circles p
    · rw [stepPoint_removed rects circles s p hrem]
      obtain ⟨h1, h2⟩ := ih
        { newSegments := if s.current = [] then s.newSegments else s.newSegments ++ [s.current]
          current := []
          totalRemoved := s.totalRemoved + 1
          rectCounts := List.zipWith
            (fun r n => if point_in_rect p.lat p.lon r then n + 1 else n) rects s.rectCounts
          circleCounts := List.zipWith
            (fun c n => if point_in_circle p.lat p.lon c then n + 1 else n)
            circles s.circleCounts }
        (fun x hx => absurd hx (List.not_mem_nil x))
      refine ⟨h1, ?_⟩
      rw [h2]
      simp only [List.nil_append]
      rw [maximalRuns_append_bad _ _ _ _ hcur hrem]
      by_cases hc : s.current = [] <;> simp [hc]
    · rw [stepPoint_retained rects circles s p hrem]
      obtain ⟨h1, h2⟩ := ih { s with
          current := s.current ++ [p]
          rectCounts := List.zipWith
            (fun r n => if point_in_rect p.lat p.lon r then n + 1 else n) rects s.rectCounts
          circleCounts := List.zipWith
            (fun c n => if point_in_circle p.lat p.lon c then n + 1 else n)
            circles s.circleCounts }
        (by
          intro x hx
          rcases List.mem_append.mp hx with hx' | hx'
          · exact hcur x hx'
          · simpa using (by simpa using hx' : x = p) ▸ hrem)
      refine ⟨h1, ?_⟩
      rw [h2]
      simp [List.append_assoc]

open Classical in
/-- Folding the per-point step only adds the number of removed points to the
running total. -/
lemma foldl_stepPoint_totalRemoved (rects : List Rect) (circles : List Circle) :
    ∀ (pts : List Trkpt) (s : SegState),
      (pts.foldl (stepPoint rects circles) s).totalRemoved =
        s.totalRemoved + pts.countP (fun p => decide (pointRemoved rects circles p)) := by
  intro pts
  induction pts with
  | nil => intro s; simp
  | cons p rest ih =>
    intro s
    rw [List.foldl_cons, List.countP_cons]
    by_cases hrem : pointRemoved rects circles p
    · rw [stepPoint_removed rects circles s p hrem, ih]
      simp [hrem]
      try omega
    · rw [stepPoint_retained rects circles s p hrem, ih]
      simp [hrem]
      try omega

open Classical in
/-- One original `trkseg`, entered with no pending run: its contribution to
`new_segments` is exactly its maximal retained runs. -/
lemma segmentTrkseg_spec (rects : List Rect) (circles : List Circle)
    (pts : List Trkpt) (s : SegState) (h : s.current = []) :
    (segmentTrkseg rects circles pts s).newSegments =
        s.newSegments ++ maximalRuns (pointRemoved rects circles) pts ∧
      (segmentTrkseg rects circles pts s).current = [] ∧
      (segmentTrkseg rects circles pts s).totalRemoved =
        s.totalRemoved + pts.countP (fun p => decide (pointRemoved rects circles p)) := by
  obtain ⟨h1, h2⟩ := foldl_stepPoint_spec rects circles pts s (by simp [h])
  rw [segmentTrkseg]
  refine ⟨?_, rfl, foldl_stepPoint_totalRemoved rects circles pts s⟩
  rw [h, List.nil_append] at h2
  rw [← h2]
  by_cases hc : (pts.foldl (stepPoint rects circles) s).current = [] <;> simp [hc]

open Classical in
/-- Folding whole `trkseg`s: `new_segments` accumulates each `trkseg`'s
maximal retained runs, in order, and the total counts all removed points. -/
lemma foldl_segmentTrkseg_spec (rects : List Rect) (circles : List Circle) :
    ∀ (tss : List (List Trkpt)) (s : SegState), s.current = [] →
      (tss.foldl (fun s' pts => segmentTrkseg rects circles pts s') s).current = [] ∧
        (tss.foldl (fun s' pts => segmentTrkseg rects circles pts s') s).newSegments =
          s.newSegments ++ tss.flatMap (maximalRuns (pointRemoved rects circles)) ∧
        (tss.foldl (fun s' pts => segmentTrkseg rects circles pts s') s).totalRemoved =
          s.totalRemoved +
            (tss.map (fun ts => ts.countP (fun p => decide (pointRemoved rects circles p)))).sum := by
  intro tss
  induction tss with
  | nil =>
    intro s h
    exact ⟨h, by simp, by simp⟩
  | cons ts rest ih =>
    intro s h
    rw [List.foldl_cons]
    obtain ⟨g1, g2, g3⟩ := segmentTrkseg_spec rects circles ts s h
    obtain ⟨k1, k2, k3⟩ := ih _ g2
    refine ⟨k1, ?_, ?_⟩
    · rw [k2, g1]
      simp [List.append_assoc]
    · rw [k3, g3]
      simp [Nat.add_assoc]

open Classical in
/-- Folding whole tracks. -/
lemma foldl_tracks_spec (rects : List Rect) (circles : List Circle) :
    ∀ (doc : List Trk) (s : SegState), s.current = [] →
      (doc.foldl (fun s' trk => trk.segs.foldl
          (fun s'' pts => segmentTrkseg rects circles pts s'') s') s).current = [] ∧
        (doc.foldl (fun s' trk => trk.segs.foldl
            (fun s'' pts => segmentTrkseg rects circles pts s'') s') s).newSegments =
          s.newSegments ++
            (doc.flatMap Trk.segs).flatMap (maximalRuns (pointRemoved rects circles)) ∧
        (doc.foldl (fun s' trk => trk.segs.foldl
            (fun s'' pts => segmentTrkseg rects circles pts s'') s') s).totalRemoved =
          s.totalRemoved + ((doc.flatMap Trk.segs).map
            (fun ts => ts.countP (fun p => decide (pointRemoved rects circles p)))).sum := by
  intro doc
  induction doc with
  | nil =>
    intro s h
    exact ⟨h, by simp, by simp⟩
  | cons trk rest ih =>
    intro s h
    rw [List.foldl_cons]
    obtain ⟨g1, g2, g3⟩ := foldl_segmentTrkseg_spec rects circles trk.segs s h
    obtain ⟨k1, k2, k3⟩ := ih _ g1
    refine ⟨k1, ?_, ?_⟩
    · rw [k2, g2]
      simp [List.append_assoc]
    · rw [k3, g3]
      simp [Nat.add_assoc]

open Classical in
/-- The first pass, characterized: `new_segments` is the in-order
concatenation, over all `trkseg`s of all tracks, of each one's maximal
retained runs; the total removed count counts every removed point. -/
lemma pass1_spec (rects : List Rect) (circles : List Circle) (doc : List Trk) :
    (pass1 rects circles doc).newSegments =
        (doc.flatMap Trk.segs).flatMap (maximalRuns (pointRemoved rects circles)) ∧
      (pass1 rects circles doc).totalRemoved =
        ((doc.flatMap Trk.segs).map
          (fun ts => ts.countP (fun p => decide (pointRemoved rects circles p)))).sum := by
  obtain ⟨_, h2, h3⟩ := foldl_tracks_spec rects circles doc
    ⟨[], [], 0, rects.map (fun _ => 0), circles.map (fun _ => 0)⟩ rfl
  rw [pass1]
  exact ⟨by simpa using h2, by simpa using h3⟩

/-! ## Second pass characterization -/

open Classical in
/-- The scan with break succeeds exactly when some point satisfies the
predicate. -/
lemma scanPts_iff (pred : Trkpt → Prop) (pts : List Trkpt) :
    scanPts pred pts = true ↔ ∃ p ∈ pts, pred p := by
  induction pts with
  | nil => simp [scanPts]
  | cons p rest ih =>
    rw [scanPts]
    by_cases hp : pred p <;> simp [hp, ih]

open Classical in
lemma classifySeg_not_eligible (rects : List Rect) (circles : List Circle)
    (max_stray_length : ℝ) (max_stray_vicinity : Option ℝ)
    (st : StrayState) (idx : ℕ) (pts : List Trkpt)
    (h : ¬ seg_length pts ≤ max_stray_length) :
    classifySeg rects circles max_stray_length max_stray_vicinity st idx pts = st := by
  rw [classifySeg, if_neg h]

open Classical in
/-- Membership in the global stray set after classifying one segment. -/
lemma classifySeg_globalStray (rects : List Rect) (circles : List Circle)
    (max_stray_length : ℝ) (max_stray_vicinity : Option ℝ)
    (st : StrayState) (idx : ℕ) (pts : List Trkpt) (k : ℕ) :
    (k ∈ (classifySeg rects circles max_stray_length max_stray_vicinity st idx pts).globalStray ↔
      k ∈ st.globalStray ∨
        (k = idx ∧ seg_length pts ≤ max_stray_length ∧
          ((∃ r ∈ rects, scanPts (fun p =>
              point_in_expanded_rectangle p.lat p.lon r max_stray_vicinity) pts = true) ∨
            (∃ c ∈ circles, scanPts (fun p =>
              point_in_circle_vicinity p.lat p.lon c max_stray_vicinity) pts = true)))) := by
  by_cases hlen : seg_length pts ≤ max_stray_length
  · rw [classifySeg, if_pos hlen]
    by_cases hA : ∃ r ∈ rects,
        scanPts (fun p => point_in_expanded_rectangle p.lat p.lon r max_stray_vicinity) pts = true
    <;> by_cases hB : ∃ c ∈ circles,
        scanPts (fun p => point_in_circle_vicinity p.lat p.lon c max_stray_vicinity) pts = true
    <;> simp [hA, hB, hlen, Finset.mem_insert]
    <;> tauto
  · rw [classifySeg_not_eligible _ _ _ _ _ _ _ hlen]
    simp [hlen]

/-! ## Claim C2 -/

open Classical in
/-- C2: for every original segment, the Segmenter's output segments are
exactly the maximal runs of consecutive retained points in original order
(first equation), and concatenating those runs yields exactly the retained
subsequence of the original point sequence — equivalently, reinserting each
removed point at its original position reconstructs the original segment
(second equation). -/
theorem segmenter_maximal_runs_reconstruct (rects : List Rect) (circles : List Circle)
    (pts : List Trkpt) (segs0 : List (List Trkpt)) (tot : ℕ) (rc cc : List ℕ) :
    (segmentTrkseg rects circles pts ⟨segs0, [], tot, rc, cc⟩).newSegments =
        segs0 ++ maximalRuns (pointRemoved rects circles) pts ∧
      (maximalRuns (pointRemoved rects circles) pts).flatten =
        pts.filter fun p => !decide (pointRemoved rects circles p) :=
  ⟨(segmentTrkseg_spec rects circles pts ⟨segs0, [], tot, rc, cc⟩ rfl).1,
    flatten_maximalRuns _ _⟩

/-! ## Claim C3 -/

open Classical in
/-- C3: a removed point increments the total exactly once, is itself
discarded, closes only the current run and only when that run is non-empty
(so a run of consecutive removed points closes no empty segment), and every
matching region's counter is incremented by one while non-matching ones are
unchanged (no short-circuit at the first match).  The per-counter facts hold
for every rectangle index and every circle index separately, so the theorem
applies to rectangle-only and circle-only region sets alike. -/
theorem stepPoint_removed_effects (rects : List Rect) (circles : List Circle)
    (s : SegState) (p : Trkpt)
    (hrem : pointRemoved rects circles p) :
    (stepPoint rects circles s p).totalRemoved = s.totalRemoved + 1 ∧
      (stepPoint rects circles s p).current = [] ∧
      (s.current = [] → (stepPoint rects circles s p).newSegments = s.newSegments) ∧
      (s.current ≠ [] →
        (stepPoint rects circles s p).newSegments = s.newSegments ++ [s.current]) ∧
      (∀ i : ℕ, ∀ hi : i < rects.length, s.rectCounts.length = rects.length →
        (stepPoint rects circles s p).rectCounts.getD i 0 =
          s.rectCounts.getD i 0 +
            (if point_in_rect p.lat p.lon (rects.get ⟨i, hi⟩) then 1 else 0)) ∧
      (∀ j : ℕ, ∀ hj : j < circles.length, s.circleCounts.length = circles.length →
        (stepPoint rects circles s p).circleCounts.getD j 0 =
          s.circleCounts.getD j 0 +
            (if point_in_circle p.lat p.lon (circles.get ⟨j, hj⟩) then 1 else 0)) := by
  rw [stepPoint_removed rects circles s p hrem]
  refine ⟨rfl, rfl, fun h => by simp [h], fun h => by simp [h], ?_, ?_⟩
  · intro i hi hri
    show (List.zipWith (fun r n => if point_in_rect p.lat p.lon r then n + 1 else n)
        rects s.rectCounts).getD i 0 = _
    rw [getD_zipWith _ _ rects s.rectCounts i hri hi]
    by_cases hb : point_in_rect p.lat p.lon (rects.get ⟨i, hi⟩) <;>
      (rw [List.get_eq_getElem] at hb; simp [hb])
  · intro j hj hcj
    show (List.zipWith (fun c n => if point_in_circle p.lat p.lon c then n + 1 else n)
        circles s.circleCounts).getD j 0 = _
    rw [getD_zipWith _ _ circles s.circleCounts j hcj hj]
    by_cases hb : point_in_circle p.lat p.lon (circles.get ⟨j, hj⟩) <;>
      (rw [List.get_eq_getElem] at hb; simp [hb])

/-- Concrete rectangle `(0,0)-(1,1)` used by witnesses. -/
def rectW : Rect := ⟨0, 0, 1, 1⟩

/-- Concrete circle centered at the origin with radius 5 m. -/
def circW : Circle := ⟨0, 0, 5⟩

/-- A concrete point at the origin (inside `rectW` and `circW`). -/
def pW : Trkpt := ⟨0, 0, []⟩

/-- A concrete retained point already in the current run. -/
def qW : Trkpt := ⟨30, 30, ["q"]⟩

/-- A concrete segmenter state with a pending non-empty run. -/
def segW : SegState := ⟨[], [qW], 0, [0], [0]⟩

lemma pW_in_rectW : point_in_rect pW.lat pW.lon rectW := by
  rw [point_in_rect]
  norm_num [rectW, pW]

lemma pW_in_circW : point_in_circle pW.lat pW.lon circW := by
  rw [point_in_circle]
  show haversine 0 0 0 0 ≤ (5 : ℝ)
  rw [haversine_self]
  norm_num

/-- Witness for C3: the origin point is removed by both `rectW` and `circW`;
both counters increment, the total increments once, and the pending run
closes as one segment. -/
theorem stepPoint_removed_effects_witness :
    (stepPoint [rectW] [circW] segW pW).totalRemoved = 1 ∧
      (stepPoint [rectW] [circW] segW pW).current = [] ∧
      (stepPoint [rectW] [circW] segW pW).newSegments = [[qW]] ∧
      (stepPoint [rectW] [circW] segW pW).rectCounts.getD 0 0 = 1 ∧
      (stepPoint [rectW] [circW] segW pW).circleCounts.getD 0 0 = 1 := by
  obtain ⟨h1, h2, h3, h4, h5, h6⟩ :=
    stepPoint_removed_effects [rectW] [circW] segW pW
      (Or.inl ⟨rectW, by simp, pW_in_rectW⟩)
  refine ⟨by simpa [segW] using h1, h2, ?_, ?_, ?_⟩
  · have h := h4 (by simp [segW])
    simpa [segW] using h
  · rw [h5 0 (by simp) (by simp [segW])]
    simp [segW, pW_in_rectW]
  · rw [h6 0 (by simp) (by simp [segW])]
    simp [segW, pW_in_circW]

/-! ## Claim C4 -/

open Classical in
/-- C4: for an eligible segment, each region is checked independently: for
every rectangle and every circle (separately — the theorem applies to
one-shape-kind region sets too), the scan for a region succeeds exactly when
some (first) point lies in its vicinity-expanded zone, in which case the
segment's length is appended once to that region's stray list; the segment's
index joins the global stray set exactly when at least one region flags it,
and the set records it once no matter how many regions do. -/
theorem classifySeg_per_region (rects : List Rect) (circles : List Circle)
    (max_stray_length : ℝ) (max_stray_vicinity : Option ℝ)
    (st : StrayState) (idx : ℕ) (pts : List Trkpt)
    (hlen : seg_length pts ≤ max_stray_length) :
    (∀ i : ℕ, ∀ hi : i < rects.length, st.strayRect.length = rects.length →
        (classifySeg rects circles max_stray_length max_stray_vicinity st idx
            pts).strayRect.getD i [] =
          (if scanPts (fun p => point_in_expanded_rectangle p.lat p.lon (rects.get ⟨i, hi⟩)
              max_stray_vicinity) pts
            then st.strayRect.getD i [] ++ [seg_length pts] else st.strayRect.getD i [])) ∧
      (∀ j : ℕ, ∀ hj : j < circles.length, st.strayCircle.length = circles.length →
        (classifySeg rects circles max_stray_length max_stray_vicinity st idx
            pts).strayCircle.getD j [] =
          (if scanPts (fun p => point_in_circle_vicinity p.lat p.lon (circles.get ⟨j, hj⟩)
              max_stray_vicinity) pts
            then st.strayCircle.getD j [] ++ [seg_length pts]
            else st.strayCircle.getD j [])) ∧
      (∀ r : Rect, scanPts (fun p => point_in_expanded_rectangle p.lat p.lon r
          max_stray_vicinity) pts = true ↔
        ∃ p ∈ pts, point_in_expanded_rectangle p.lat p.lon r max_stray_vicinity) ∧
      (∀ c : Circle, scanPts (fun p => point_in_circle_vicinity p.lat p.lon c
          max_stray_vicinity) pts = true ↔
        ∃ p ∈ pts, point_in_circle_vicinity p.lat p.lon c max_stray_vicinity) ∧
      (idx ∈ (classifySeg rects circles max_stray_length max_stray_vicinity st idx
            pts).globalStray ↔
        (∃ r ∈ rects, scanPts (fun p =>
            point_in_expanded_rectangle p.lat p.lon r max_stray_vicinity) pts = true) ∨
          (∃ c ∈ circles, scanPts (fun p =>
            point_in_circle_vicinity p.lat p.lon c max_stray_vicinity) pts = true) ∨
          idx ∈ st.globalStray) := by
  refine ⟨?_, ?_, fun r => scanPts_iff _ _, fun c => scanPts_iff _ _, ?_⟩
  · intro i hi hri
    rw [classifySeg, if_pos hlen]
    show (List.zipWith _ rects st.strayRect).getD i [] = _
    rw [getD_zipWith _ _ rects st.strayRect i hri hi]
  · intro j hj hcj
    rw [classifySeg, if_pos hlen]
    show (List.zipWith _ circles st.strayCircle).getD j [] = _
    rw [getD_zipWith _ _ circles st.strayCircle j hcj hj]
  · rw [classifySeg_globalStray]
    constructor
    · rintro (h | ⟨-, -, h | h⟩)
      · exact Or.inr (Or.inr h)
      · exact Or.inl h
      · exact Or.inr (Or.inl h)
    · rintro (h | h | h)
      · exact Or.inr ⟨rfl, hlen, Or.inl h⟩
      · exact Or.inr ⟨rfl, hlen, Or.inr h⟩
      · exact Or.inl h

/-- A stray-state with one empty per-region list on each side. -/
def stW : StrayState := ⟨∅, [[]], [[]]⟩

lemma pW_in_expanded_rectW : point_in_expanded_rectangle pW.lat pW.lon rectW (some 0) := by
  rw [point_in_expanded_rectangle]
  norm_num [rectW, pW]

lemma pW_in_vicinity_circW : point_in_circle_vicinity pW.lat pW.lon circW (some 0) := by
  rw [point_in_circle_vicinity]
  show haversine 0 0 0 0 ≤ (5 : ℝ) + (some (0:ℝ)).getD circW.radius
  rw [haversine_self]
  norm_num

lemma seg_length_single (p : Trkpt) : seg_length [p] = 0 := by
  rw [seg_length]
  intro a b c h
  simp at h

open Classical in
lemma scan_rectW : scanPts (fun p =>
    point_in_expanded_rectangle p.lat p.lon rectW (some 0)) [pW] = true := by
  rw [scanPts, if_pos pW_in_expanded_rectW]

open Classical in
lemma scan_circW : scanPts (fun p =>
    point_in_circle_vicinity p.lat p.lon circW (some 0)) [pW] = true := by
  rw [scanPts, if_pos pW_in_vicinity_circW]

/-- Witness for C4: a single-point length-0 segment at the origin is flagged
stray for `rectW` and for `circW` (override vicinity 0), its length is
appended to both stray lists, and its index enters the global set once. -/
theorem classifySeg_per_region_witness :
    (classifySeg [rectW] [circW] 10 (some 0) stW 0 [pW]).strayRect.getD 0 [] = [0] ∧
      (classifySeg [rectW] [circW] 10 (some 0) stW 0 [pW]).strayCircle.getD 0 [] = [0] ∧
      0 ∈ (classifySeg [rectW] [circW] 10 (some 0) stW 0 [pW]).globalStray := by
  obtain ⟨h1, h2, h3, h4, h5⟩ :=
    classifySeg_per_region [rectW] [circW] 10 (some 0) stW 0 [pW]
      (by rw [seg_length_single]; norm_num)
  refine ⟨?_, ?_, ?_⟩
  · rw [h1 0 (by simp) (by simp [stW])]
    simp [stW, scan_rectW, seg_length_single]
  · rw [h2 0 (by simp) (by simp [stW])]
    simp [stW, scan_circW, seg_length_single]
  · rw [h5]
    exact Or.inl ⟨rectW, by simp, scan_rectW⟩

/-! ## Claim C5 -/

open Classical in
/-- C5: a segment is eligible for stray classification exactly when its
length is at most `max_stray_length` (inclusive bound): a longer segment
leaves the classification state entirely unchanged (never flagged for any
region), and the index joins the global stray set exactly when the segment
is within the bound and some region's vicinity scan succeeds. -/
theorem classifySeg_length_bound (rects : List Rect) (circles : List Circle)
    (max_stray_length : ℝ) (max_stray_vicinity : Option ℝ)
    (st : StrayState) (idx : ℕ) (pts : List Trkpt) :
    (max_stray_length < seg_length pts →
        classifySeg rects circles max_stray_length max_stray_vicinity st idx pts = st) ∧
      (idx ∈ (classifySeg rects circles max_stray_length max_stray_vicinity st idx
          pts).globalStray ↔
        idx ∈ st.globalStray ∨
          (seg_length pts ≤ max_stray_length ∧
            ((∃ r ∈ rects, scanPts (fun p =>
                point_in_expanded_rectangle p.lat p.lon r max_stray_vicinity) pts = true) ∨
              (∃ c ∈ circles, scanPts (fun p =>
                point_in_circle_vicinity p.lat p.lon c max_stray_vicinity) pts =
                  true)))) := by
  constructor
  · intro h
    exact classifySeg_not_eligible _ _ _ _ _ _ _ (not_le.mpr h)
  · rw [classifySeg_globalStray]
    constructor
    · rintro (h | ⟨-, h2, h3⟩)
      · exact Or.inl h
      · exact Or.inr ⟨h2, h3⟩
    · rintro (h | ⟨h2, h3⟩)
      · exact Or.inl h
      · exact Or.inr ⟨rfl, h2, h3⟩

/-! ## Claim C6 -/

open Classical in
/-- C6: the strict containment predicates are boundary-inclusive — a point
exactly on a rectangle edge is contained, a point exactly `radius` meters
from a circle's center is contained; the distance between identical points is
zero (no division by zero), so a zero-radius circle contains the point at its
center. -/
theorem containment_boundary_inclusive (rect : Rect) (circle : Circle) (lat lon : ℝ)
    (h_edge : ((lat = min rect.lat1 rect.lat2 ∨ lat = max rect.lat1 rect.lat2) ∧
        min rect.lon1 rect.lon2 ≤ lon ∧ lon ≤ max rect.lon1 rect.lon2) ∨
      ((lon = min rect.lon1 rect.lon2 ∨ lon = max rect.lon1 rect.lon2) ∧
        min rect.lat1 rect.lat2 ≤ lat ∧ lat ≤ max rect.lat1 rect.lat2))
    (h_r : haversine lat lon circle.center_lat circle.center_lon = circle.radius) :
    point_in_rect lat lon rect ∧
      point_in_circle lat lon circle ∧
      haversine lat lon lat lon = 0 ∧
      point_in_circle lat lon ⟨lat, lon, 0⟩ := by
  refine ⟨?_, ?_, haversine_self lat lon, ?_⟩
  · rw [point_in_rect]
    rcases h_edge with ⟨hl, h1, h2⟩ | ⟨hl, h1, h2⟩
    · rcases hl with rfl | rfl
      · exact ⟨⟨le_rfl, min_le_max⟩, h1, h2⟩
      · exact ⟨⟨min_le_max, le_rfl⟩, h1, h2⟩
    · rcases hl with rfl | rfl
      · exact ⟨⟨h1, h2⟩, le_rfl, min_le_max⟩
      · exact ⟨⟨h1, h2⟩, min_le_max, le_rfl⟩
  · rw [point_in_circle, h_r]
  · rw [point_in_circle]
    show haversine lat lon lat lon ≤ 0
    rw [haversine_self]

/-- Witness for C6: the point `(0, 1/2)` on the bottom edge of `rectW`, and
the zero-radius circle centered at that same point. -/
theorem containment_boundary_inclusive_witness :
    point_in_rect 0 (1 / 2) rectW ∧
      point_in_circle 0 (1 / 2) ⟨0, 1 / 2, 0⟩ ∧
      haversine 0 (1 / 2) 0 (1 / 2) = 0 ∧
      point_in_circle 0 (1 / 2) ⟨0, 1 / 2, 0⟩ := by
  have h := containment_boundary_inclusive rectW ⟨0, 1 / 2, 0⟩ 0 (1 / 2)
    (Or.inl ⟨Or.inl (by norm_num [rectW]), by norm_num [rectW], by norm_num [rectW]⟩)
    (by show haversine 0 (1/2) 0 (1/2) = 0; rw [haversine_self])
  exact ⟨h.1, h.2.1, h.2.2.1, h.2.2.2⟩

/-! ## Claim C10 -/

open Classical in
/-- C10: a degenerate rectangle (equal corner latitudes or equal corner
longitudes) has width or height zero, hence default vicinity
`min(width, height)/2 = 0`, so without an override vicinity the expanded
predicate coincides exactly with strict containment. -/
theorem degenerate_rect_expanded_eq_strict (rect : Rect) (lat lon : ℝ)
    (h : rect.lat1 = rect.lat2 ∨ rect.lon1 = rect.lon2) :
    point_in_expanded_rectangle lat lon rect none ↔ point_in_rect lat lon rect := by
  have hv : rect_default_vicinity rect = 0 := by
    rcases h with h | h
    · have hh : rect_height rect = 0 := by
        rw [rect_height, h]
        simp [haversine_self]
      have hw0 : 0 ≤ rect_width rect := by
        rw [rect_width]
        exact haversine_nonneg _ _ _ _
      rw [rect_default_vicinity, hh, min_eq_right hw0]
      norm_num
    · have hw : rect_width rect = 0 := by
        rw [rect_width, h]
        simp [haversine_self]
      have hh0 : 0 ≤ rect_height rect := by
        rw [rect_height]
        exact haversine_nonneg _ _ _ _
      rw [rect_default_vicinity, hw, min_eq_left hh0]
      norm_num
  rw [point_in_expanded_rectangle, point_in_rect]
  simp [hv]

/-- A degenerate rectangle: both corners on latitude 0. -/
def rectD : Rect := ⟨0, 0, 0, 5⟩

/-- Witness for C10 at a concrete point and the degenerate `rectD`. -/
theorem degenerate_rect_expanded_eq_strict_witness :
    point_in_expanded_rectangle 2 3 rectD none ↔ point_in_rect 2 3 rectD :=
  degenerate_rect_expanded_eq_strict rectD 2 3 (Or.inl rfl)

/-! ## Pipeline projections -/

open Classical in
lemma process_totalRemoved (rects : List Rect) (circles : List Circle)
    (max_stray_length : ℝ) (remove_stray : Bool) (max_stray_vicinity : Option ℝ)
    (doc : List Trk) :
    (process_gpx_with_stats rects circles max_stray_length remove_stray max_stray_vicinity
        doc).totalRemoved = (pass1 rects circles doc).totalRemoved := by
  rw [process_gpx_with_stats]

open Classical in
lemma process_outDoc (rects : List Rect) (circles : List Circle)
    (max_stray_length : ℝ) (remove_stray : Bool) (max_stray_vicinity : Option ℝ)
    (doc : List Trk) :
    (process_gpx_with_stats rects circles max_stray_length remove_stray max_stray_vicinity
        doc).outDoc =
      doc.map (fun trk => { trk with segs :=
        (process_gpx_with_stats rects circles max_stray_length remove_stray
          max_stray_vicinity doc).finalSegments }) := by
  rw [process_gpx_with_stats]

open Classical in
lemma process_outDoc_no_removal (rects : List Rect) (circles : List Circle)
    (max_stray_length : ℝ) (max_stray_vicinity : Option ℝ) (doc : List Trk) :
    (process_gpx_with_stats rects circles max_stray_length false max_stray_vicinity
        doc).outDoc =
      doc.map (fun trk => { trk with segs := (pass1 rects circles doc).newSegments }) := by
  rw [process_gpx_with_stats]
  simp

open Classical in
/-- Every final segment is one of the first pass's new segments. -/
lemma finalSegments_mem (rects : List Rect) (circles : List Circle)
    (max_stray_length : ℝ) (remove_stray : Bool) (max_stray_vicinity : Option ℝ)
    (doc : List Trk) (ts : List Trkpt)
    (h : ts ∈ (process_gpx_with_stats rects circles max_stray_length remove_stray
      max_stray_vicinity doc).finalSegments) :
    ts ∈ (pass1 rects circles doc).newSegments := by
  rw [process_gpx_with_stats] at h
  dsimp only at h
  rcases remove_stray with _ | _
  · simpa using h
  · rw [if_pos rfl] at h
    exact snd_mem_of_mem_enum_filter h

open Classical in
/-- Every new segment of the first pass holds only retained points. -/
lemma newSegments_retained (rects : List Rect) (circles : List Circle) (doc : List Trk)
    (ts : List Trkpt) (h : ts ∈ (pass1 rects circles doc).newSegments) (p : Trkpt)
    (hp : p ∈ ts) : ¬ pointRemoved rects circles p := by
  rw [(pass1_spec rects circles doc).1] at h
  obtain ⟨orig, _, hmem⟩ := List.mem_flatMap.mp h
  exact ((maximalRuns_runs _ orig ts hmem).2) p hp

/-! ## Claim C8 -/

open Classical in
/-- C8: the strict-removal pass is idempotent — running the pipeline with
stray removal disabled and feeding its output back in with the same regions
removes zero points the second time: every retained point is outside every
region, so nothing further matches. -/
theorem strict_removal_fixed_point (rects : List Rect) (circles : List Circle)
    (max_stray_length : ℝ) (max_stray_vicinity : Option ℝ) (doc : List Trk) :
    (process_gpx_with_stats rects circles max_stray_length false max_stray_vicinity
      ((process_gpx_with_stats rects circles max_stray_length false max_stray_vicinity
        doc).outDoc)).totalRemoved = 0 := by
  rw [process_totalRemoved, (pass1_spec rects circles _).2]
  apply List.sum_eq_zero
  intro n hn
  obtain ⟨ts, hts, rfl⟩ := List.mem_map.mp hn
  rw [List.countP_eq_zero]
  intro p hp
  simp only [decide_eq_true_eq]
  rw [process_outDoc_no_removal] at hts
  obtain ⟨trk', htrk', hseg⟩ := List.mem_flatMap.mp hts
  obtain ⟨trk0, _, rfl⟩ := List.mem_map.mp htrk'
  exact newSegments_retained rects circles doc ts hseg p hp

/-! ## Claim C9 -/

open Classical in
/-- C9: every point of the output document is, as a whole value — latitude,
longitude and all carried attributes — one of the input document's points:
the pipeline only ever re-groups the original point values and never alters
a retained point. -/
theorem output_points_are_input_points (rects : List Rect) (circles : List Circle)
    (max_stray_length : ℝ) (remove_stray : Bool) (max_stray_vicinity : Option ℝ)
    (doc : List Trk) (p : Trkpt)
    (h : p ∈ ((process_gpx_with_stats rects circles max_stray_length remove_stray
      max_stray_vicinity doc).outDoc.flatMap Trk.segs).flatten) :
    p ∈ (doc.flatMap Trk.segs).flatten := by
  obtain ⟨seg, hseg, hp⟩ := List.mem_flatten.mp h
  obtain ⟨trk', htrk', hseg'⟩ := List.mem_flatMap.mp hseg
  rw [process_outDoc] at htrk'
  obtain ⟨trk0, _, rfl⟩ := List.mem_map.mp htrk'
  have hnew : seg ∈ (pass1 rects circles doc).newSegments :=
    finalSegments_mem rects circles max_stray_length remove_stray max_stray_vicinity doc
      seg hseg'
  rw [(pass1_spec rects circles doc).1] at hnew
  obtain ⟨orig, horig, hmem⟩ := List.mem_flatMap.mp hnew
  refine List.mem_flatten.mpr ⟨orig, horig, ?_⟩
  have hpf : p ∈ (maximalRuns (pointRemoved rects circles) orig).flatten :=
    List.mem_flatten.mpr ⟨seg, hmem, hp⟩
  rw [flatten_maximalRuns] at hpf
  exact List.mem_of_mem_filter hpf

/-- A concrete one-track one-segment document for the C9 witness. -/
def pt9 : Trkpt := ⟨3, 4, ["ele"]⟩

/-- The document holding just `pt9`. -/
def doc9 : List Trk := [⟨["T"], [[pt9]]⟩]

open Classical in
lemma process_doc9_outDoc :
    (process_gpx_with_stats [] [] 10 false none doc9).outDoc = doc9 := by
  rw [process_outDoc_no_removal]
  simp [pass1, segmentTrkseg, stepPoint, pointRemoved, doc9]

/-- Witness for C9: the single output point of `doc9` (no regions) is the
original input point, attributes included. -/
theorem output_points_are_input_points_witness :
    pt9 ∈ ((doc9.flatMap Trk.segs).flatten) := by
  apply output_points_are_input_points [] [] 10 false none doc9 pt9
  rw [process_doc9_outDoc]
  simp [doc9]

/-! ## Claim C1 -/

/-- Track "A"'s single point. -/
def pA : Trkpt := ⟨10, 10, ["A1"]⟩

/-- Track "B"'s single point. -/
def pB : Trkpt := ⟨20, 20, ["B1"]⟩

/-- A two-track document, one segment of one point each. -/
def docAB : List Trk := [⟨["A"], [[pA]]⟩, ⟨["B"], [[pB]]⟩]

open Classical in
/-- C1 (code bug): with no removal regions both tracks' segments survive
unchanged, yet the rebuild of lines 209-214 appends the whole cross-track
final segment list to every track: track "B" is emitted holding track "A"'s
segment `[pA]` (and vice versa), not a partition by original track
membership. -/
theorem rebuild_appends_all_segments_to_every_track :
    (process_gpx_with_stats [] [] 10 false none docAB).outDoc =
        [⟨["A"], [[pA], [pB]]⟩, ⟨["B"], [[pA], [pB]]⟩] ∧
      [pA] ∈ ((process_gpx_with_stats [] [] 10 false none docAB).outDoc.map
        Trk.segs).getD 1 [] := by
  have e : (process_gpx_with_stats [] [] 10 false none docAB).outDoc =
      [⟨["A"], [[pA], [pB]]⟩, ⟨["B"], [[pA], [pB]]⟩] := by
    rw [process_outDoc_no_removal]
    simp [pass1, segmentTrkseg, stepPoint, pointRemoved, docAB]
  refine ⟨e, ?_⟩
  rw [e]
  simp

/-! ## Claim C7 -/

/-- A two-track document: track "A" retains its point, track "B"'s only
point lies inside `rectW` and is removed. -/
def docC7 : List Trk := [⟨["A"], [[qW]]⟩, ⟨["B"], [[pW]]⟩]

lemma qW_not_removed : ¬ pointRemoved [rectW] [] qW := by
  rintro (⟨r, hr, hcont⟩ | ⟨c, hc, -⟩)
  · simp only [List.mem_singleton] at hr
    subst hr
    rw [point_in_rect] at hcont
    norm_num [rectW, qW] at hcont
  · simp at hc

lemma pW_removed : pointRemoved [rectW] [] pW :=
  Or.inl ⟨rectW, by simp, pW_in_rectW⟩

open Classical in
/-- Counterexample to C7 as stated: track "B" loses its only point to
`rectW`, yet it is not emitted as an empty track — the rebuild hands it
track "A"'s surviving segment `[qW]`. -/
theorem all_removed_track_emitted_nonempty :
    (process_gpx_with_stats [rectW] [] 10 false none docC7).outDoc =
        [⟨["A"], [[qW]]⟩, ⟨["B"], [[qW]]⟩] ∧
      ((process_gpx_with_stats [rectW] [] 10 false none docC7).outDoc.map
        Trk.segs).getD 1 [] ≠ [] := by
  have e : (process_gpx_with_stats [rectW] [] 10 false none docC7).outDoc =
      [⟨["A"], [[qW]]⟩, ⟨["B"], [[qW]]⟩] := by
    rw [process_outDoc_no_removal]
    simp [pass1, segmentTrkseg, stepPoint, docC7, pW_removed, qW_not_removed]
  refine ⟨e, ?_⟩
  rw [e]
  simp

open Classical in
/-- C7 amended: the pipeline never creates or destroys a track — the output
has exactly the input's tracks, in order, with their non-segment content
unchanged; and when the document-wide final segment list is empty (in
particular, whenever every point of a single-track document is removed),
every track is emitted as an empty track rather than dropped.  (As stated,
the claim fails for multi-track documents: a fully-removed track receives
the other tracks' surviving segments, see the counterexample.) -/
theorem tracks_never_created_or_destroyed (rects : List Rect) (circles : List Circle)
    (max_stray_length : ℝ) (remove_stray : Bool) (max_stray_vicinity : Option ℝ)
    (doc : List Trk) :
    (process_gpx_with_stats rects circles max_stray_length remove_stray max_stray_vicinity
          doc).outDoc.map Trk.extra = doc.map Trk.extra ∧
      (process_gpx_with_stats rects circles max_stray_length remove_stray max_stray_vicinity
          doc).outDoc.length = doc.length ∧
      ((process_gpx_with_stats rects circles max_stray_length remove_stray max_stray_vicinity
          doc).finalSegments = [] →
        (process_gpx_with_stats rects circles max_stray_length remove_stray max_stray_vicinity
            doc).outDoc.map Trk.segs = doc.map fun _ => ([] : List (List Trkpt))) := by
  refine ⟨?_, ?_, ?_⟩
  · rw [process_outDoc]
    simp [List.map_map, Function.comp]
  · rw [process_outDoc]
    simp
  · intro hF
    rw [process_outDoc, hF, List.map_map]
    rfl

end GpxAnon
